import Mathlib

/-!
Verification of the mcp-rando-server Diceware core.

Shallow embedding of the TypeScript sources:
* `src/utils/crypto.ts` — `secureRandomInt`, `secureRandomFloat`,
  `secureArrayShuffle`, `secureRandomChoice`;
* `src/utils/diceware.ts` — `generateDiceRolls`, `loadWordlist` (its
  parsing phase, the file read being external I/O), `getDiceCount`;
* `src/tools/diceware.ts` — the `diceware-passphrase` tool handler.

The cryptographic entropy source (Node's `crypto.randomInt` /
`crypto.randomBytes`) is modelled as an arbitrary infinite stream of
natural numbers together with a read position: `crypto.randomInt(min, max)`
returns some value in `[min, max)` (every value of the range is attained
for a suitable stream) and throws when the range is empty, which the
embedding renders as `Except`.  JavaScript `Map` is modelled as an
association list with `Map.set` upsert semantics, and JavaScript numbers
used as loop bounds are modelled as `Int` (a `for (let i = 0; i < n; ...)`
loop runs `n.toNat` times).  Floats are modelled by exact rational
arithmetic.
-/

/-- The entropy source: an infinite stream of natural numbers `g`
together with the position `pos` of the next unread draw. -/
structure Entropy where
  g : Nat → Nat
  pos : Nat

/-- Read one raw value from the entropy stream. -/
def Entropy.next (e : Entropy) : Nat × Entropy :=
  (e.g e.pos, ⟨e.g, e.pos + 1⟩)

/-- Skip `n` raw draws of the entropy stream. -/
def Entropy.advance (e : Entropy) (n : Nat) : Entropy :=
  ⟨e.g, e.pos + n⟩

@[simp] theorem Entropy.advance_zero (e : Entropy) : e.advance 0 = e := rfl

theorem Entropy.advance_advance (e : Entropy) (a b : Nat) :
    (e.advance a).advance b = e.advance (a + b) := by
  simp [Entropy.advance, Nat.add_assoc]

/-- Node's `crypto.randomInt(min, max)`: an integer drawn in `[min, max)`;
throws a `RangeError` when the range is empty.  The draw is modelled as
`min + k % (max - min)` for the next stream value `k`, which ranges over
exactly `[min, max)` as the stream varies. -/
def randomInt (min max : Int) (e : Entropy) : Except String (Int × Entropy) :=
  if max ≤ min then
    .error "The value of \x22max\x22 is out of range."
  else
    let (k, e') := e.next
    .ok (min + (k : Int) % (max - min), e')

/-- `secureRandomInt` from `src/utils/crypto.ts`:
`return randomInt(min, max + 1);`. -/
def secureRandomInt (min max : Int) (e : Entropy) : Except String (Int × Entropy) :=
  randomInt min (max + 1) e

theorem secureRandomInt_ok (min max : Int) (e : Entropy) (h : min ≤ max) :
    secureRandomInt min max e =
      .ok (min + (e.g e.pos : Int) % (max + 1 - min), e.advance 1) := by
  have hlt : ¬ max + 1 ≤ min := by omega
  simp [secureRandomInt, randomInt, hlt, Entropy.next, Entropy.advance]

theorem secureRandomInt_bounds (min max : Int) (e : Entropy) (h : min ≤ max) :
    ∀ v e', secureRandomInt min max e = .ok (v, e') → min ≤ v ∧ v ≤ max := by
  intro v e' hv
  rw [secureRandomInt_ok min max e h] at hv
  have hd : (0 : Int) < max + 1 - min := by omega
  have h0 : 0 ≤ (e.g e.pos : Int) % (max + 1 - min) :=
    Int.emod_nonneg _ (by omega)
  have h1 : (e.g e.pos : Int) % (max + 1 - min) < max + 1 - min :=
    Int.emod_lt_of_pos _ hd
  have : v = min + (e.g e.pos : Int) % (max + 1 - min) := by
    injection hv with h'; injection h' with h1 h2; omega
  omega

/-- Claim C6: for all `min ≤ max`, `secureRandomInt min max` succeeds and
returns a value `v` with `min ≤ v ≤ max`, both bounds being attainable
(for suitable entropy streams), and when `min = max` the returned value is
always exactly `min`. -/
theorem secureRandomInt_spec (min max : Int) (e : Entropy) (h : min ≤ max) :
    (∃ v, secureRandomInt min max e = .ok (v, e.advance 1) ∧
      min ≤ v ∧ v ≤ max ∧ (min = max → v = min)) ∧
    (∃ e₁ : Entropy, (secureRandomInt min max e₁).map Prod.fst = .ok min) ∧
    (∃ e₂ : Entropy, (secureRandomInt min max e₂).map Prod.fst = .ok max) := by
  refine ⟨⟨min + (e.g e.pos : Int) % (max + 1 - min), secureRandomInt_ok min max e h,
      ?_, ?_, ?_⟩, ⟨⟨fun _ => 0, 0⟩, ?_⟩, ⟨⟨fun _ => (max - min).toNat, 0⟩, ?_⟩⟩
  · have := Int.emod_nonneg (e.g e.pos : Int) (show max + 1 - min ≠ 0 by omega)
    omega
  · have := Int.emod_lt_of_pos (e.g e.pos : Int) (show (0 : Int) < max + 1 - min by omega)
    omega
  · intro hmm
    subst hmm
    simp
  · rw [secureRandomInt_ok min max _ h]
    simp [Except.map, Int.zero_emod]
  · rw [secureRandomInt_ok min max _ h]
    have hcast : (((max - min).toNat : Nat) : Int) = max - min := Int.toNat_of_nonneg (by omega)
    simp only [hcast, Except.map]
    have : (max - min) % (max + 1 - min) = max - min :=
      Int.emod_eq_of_lt (by omega) (by omega)
    rw [this]
    congr 1
    omega

/-- Witness for C6 at `min = 2`, `max = 5`. -/
theorem secureRandomInt_spec_witness :
    (2 : Int) ≤ 5 ∧
    ((∃ v, secureRandomInt 2 5 ⟨fun _ => 0, 0⟩ = .ok (v, Entropy.advance ⟨fun _ => 0, 0⟩ 1) ∧
        2 ≤ v ∧ v ≤ 5 ∧ ((2 : Int) = 5 → v = 2)) ∧
      (∃ e₁ : Entropy, (secureRandomInt 2 5 e₁).map Prod.fst = .ok 2) ∧
      (∃ e₂ : Entropy, (secureRandomInt 2 5 e₂).map Prod.fst = .ok 5)) :=
  ⟨by decide, secureRandomInt_spec 2 5 ⟨fun _ => 0, 0⟩ (by decide)⟩

/-- The static dice-count registry from `getDiceCount` in
`src/utils/diceware.ts`. -/
def diceCountMap : List (String × Nat) :=
  [("large_wordlist.txt", 5), ("original_reinhold_wordlist.txt", 5),
   ("short_wordlist.txt", 4), ("short_wordlist_unique_prefixes.txt", 4)]

/-- The own property names of `Object.prototype` in Node (V8), in the
order reported by `Object.getOwnPropertyNames(Object.prototype)`.  A
bracket lookup on an object literal that misses every own property still
finds these on the prototype chain, and the inherited member (a function,
or for `__proto__` an object) is neither `null` nor `undefined`. -/
def objectPrototypeKeys : List String :=
  ["constructor", "__defineGetter__", "__defineSetter__", "hasOwnProperty",
   "__lookupGetter__", "__lookupSetter__", "isPrototypeOf",
   "propertyIsEnumerable", "toString", "valueOf", "__proto__",
   "toLocaleString"]

/-- A JavaScript value `getDiceCount` can evaluate to: a number, or a
member inherited from `Object.prototype` (not nullish, so `?? 4` keeps
it and the function's declared `number` return type is violated). -/
inductive JsValue where
  | num (n : Nat)
  | protoMember (name : String)
deriving DecidableEq

/-- `getDiceCount` from `src/utils/diceware.ts`.  The argument is
`string | null | undefined`; `null` and `undefined` are modelled as
`none`, and the leading `if (!filename)` truthiness test also catches the
empty string.  The lookup `diceCountMap[filename] ?? 4` is a JavaScript
property access on an object literal: it consults the prototype chain,
so a key that is no own property but is a property of `Object.prototype`
(such as `"toString"`) yields the inherited member rather than
`undefined`, and `?? 4` does not replace it. -/
def getDiceCount (filename : Option String) : JsValue :=
  match filename with
  | none => .num 4
  | some s =>
    if s = "" then .num 4
    else
      match (diceCountMap.find? (fun p => p.1 == s)).map Prod.snd with
      | some n => .num n
      | none =>
        if objectPrototypeKeys.contains s then .protoMember s
        else .num 4

/-- Claim C5 (code bug): `getDiceCount` does return 5 for the two large
wordlists, 4 for the two short wordlists, and 4 for null/undefined, the
empty string, and ordinary unrecognized identifiers — but the claimed
"4 for every unrecognized identifier" fails at identifiers that name
properties of `Object.prototype`: `getDiceCount("toString")` evaluates
`diceCountMap["toString"]` to the inherited `Object.prototype.toString`
function, which is not nullish, so `?? 4` keeps it and no number 4 is
returned, contradicting the code's own "Default to 4 dice if filename
not found" comment and its declared `number` return type. -/
theorem getDiceCount_proto_bug :
    getDiceCount (some "large_wordlist.txt") = .num 5 ∧
    getDiceCount (some "original_reinhold_wordlist.txt") = .num 5 ∧
    getDiceCount (some "short_wordlist.txt") = .num 4 ∧
    getDiceCount (some "short_wordlist_unique_prefixes.txt") = .num 4 ∧
    getDiceCount none = .num 4 ∧
    getDiceCount (some "") = .num 4 ∧
    getDiceCount (some "unknown_file.txt") = .num 4 ∧
    getDiceCount (some "some_random_name.txt") = .num 4 ∧
    getDiceCount (some "toString") = .protoMember "toString" ∧
    getDiceCount (some "toString") ≠ .num 4 ∧
    getDiceCount (some "hasOwnProperty") = .protoMember "hasOwnProperty" ∧
    getDiceCount (some "__proto__") = .protoMember "__proto__" ∧
    getDiceCount (some "valueOf") ≠ .num 4 := by
  decide

/-- JavaScript `Map.set` on a string-keyed map modelled as an ordered
association list: an existing key keeps its position and gets the new
value, a new key is appended. -/
def mapSet (m : List (String × String)) (k v : String) : List (String × String) :=
  if m.any (fun p => p.1 == k) then
    m.map (fun p => if p.1 == k then (k, v) else p)
  else m ++ [(k, v)]

/-- JavaScript `Map.get`: the value stored at `k`, if any. -/
def mapGet (m : List (String × String)) (k : String) : Option String :=
  (m.find? (fun p => p.1 == k)).map Prod.snd

/-- Character-level worker for JavaScript `String.prototype.split` with a
single-character separator. -/
def splitAux (sep : Char) : List Char → List Char → List String
  | [], acc => [String.mk acc.reverse]
  | c :: cs, acc =>
    if c = sep then String.mk acc.reverse :: splitAux sep cs []
    else splitAux sep cs (c :: acc)

/-- JavaScript `s.split(sep)` for a one-character separator: the empty
string yields `[""]`, adjacent separators yield empty fields. -/
def splitOnChar (sep : Char) (s : String) : List String :=
  splitAux sep s.data []

/-- JavaScript `String.prototype.trim`: strip leading and trailing
whitespace (spaces, tabs, newlines, carriage returns). -/
def jsTrim (s : String) : String :=
  String.mk (((s.data.dropWhile Char.isWhitespace).reverse.dropWhile
    Char.isWhitespace).reverse)

/-- One iteration of the `for (const line of lines)` loop in
`loadWordlist` (`src/utils/diceware.ts`): skip the line when it is blank
after trimming, otherwise split it on the tab character and insert the
two fields into the map when there are exactly two and both are truthy
(non-empty). -/
def processLine (wm : List (String × String)) (line : String) : List (String × String) :=
  if jsTrim line = "" then wm
  else
    match splitOnChar '\t' line with
    | [number, word] =>
      if number ≠ "" ∧ word ≠ "" then mapSet wm number word else wm
    | _ => wm

/-- The parsing phase of `loadWordlist` (`src/utils/diceware.ts`): the
file content is trimmed, split into lines, and folded through
`processLine` starting from the empty map.  The `readFileSync` file read
is external I/O and is modelled by passing the raw content. -/
def parseWordlist (content : String) : List (String × String) :=
  (splitOnChar '\n' (jsTrim content)).foldl processLine []

theorem mapGet_mapSet (wm : List (String × String)) (k v : String) :
    mapGet (mapSet wm k v) k = some v := by
  unfold mapSet
  by_cases hany : wm.any (fun p => p.1 == k)
  · rw [if_pos hany]
    unfold mapGet
    induction wm with
    | nil => simp at hany
    | cons a t ih =>
      by_cases ha : a.1 == k
      · simp [List.find?, ha]
      · have hb : (a.1 == k) = false := by simpa using ha
        have hta : t.any (fun p => p.1 == k) := by
          simp only [List.any_cons, hb, Bool.false_or] at hany
          exact hany
        simpa [List.find?, hb] using ih hta
  · rw [if_neg hany]
    unfold mapGet
    induction wm with
    | nil => simp [List.find?]
    | cons a t ih =>
      simp only [List.any_cons, Bool.or_eq_true, not_or] at hany
      simp only [List.cons_append, List.find?,
        Bool.of_not_eq_true hany.1]
      exact ih (by simp [hany.2])

/-- Claim C2: `loadWordlist` parsing.  A line yields an entry iff it is
non-blank after trimming and splitting it on the tab character yields
exactly two non-empty fields; every other line is silently skipped;
duplicate keys are resolved last-write-wins by the `Map.set` upsert; and
the five-line reference input produces exactly the two entries
`("1111", "word1")` and `("2222", "word2")`. -/
theorem loadWordlist_parsing_spec :
    (∀ (wm : List (String × String)) (line k w : String),
        jsTrim line ≠ "" → splitOnChar '\t' line = [k, w] → k ≠ "" → w ≠ "" →
        processLine wm line = mapSet wm k w) ∧
    (∀ (wm : List (String × String)) (line : String),
        ¬ (jsTrim line ≠ "" ∧
            ∃ k w, splitOnChar '\t' line = [k, w] ∧ k ≠ "" ∧ w ≠ "") →
        processLine wm line = wm) ∧
    (∀ (wm : List (String × String)) (k v : String),
        mapGet (mapSet wm k v) k = some v) ∧
    parseWordlist
        "1111\tword1\ninvalid_line_no_tab\n2222\tword2\n\t\t\n3333\tword3\textra_column" =
      [("1111", "word1"), ("2222", "word2")] := by
  refine ⟨?_, ?_, mapGet_mapSet, by decide⟩
  · intro wm line k w ht hs hk hw
    unfold processLine
    rw [if_neg ht, hs]
    show (if k ≠ "" ∧ w ≠ "" then mapSet wm k w else wm) = mapSet wm k w
    rw [if_pos ⟨hk, hw⟩]
  · intro wm line hn
    push_neg at hn
    unfold processLine
    by_cases ht : jsTrim line = ""
    · rw [if_pos ht]
    · rw [if_neg ht]
      have h2 := hn ht
      cases hsp : splitOnChar '\t' line with
      | nil => rfl
      | cons a tl =>
        cases tl with
        | nil => rfl
        | cons b tl2 =>
          cases tl2 with
          | nil =>
            show (if a ≠ "" ∧ b ≠ "" then mapSet wm a b else wm) = wm
            rw [if_neg]
            rintro ⟨hk, hw⟩
            exact hw (h2 a b hsp hk)
          | cons c tl3 => rfl

/-- Witness for C2: the acceptance clause at the line `"1111\tword1"`,
the rejection clause at the tab-free line, and last-write-wins at a
duplicate key. -/
theorem loadWordlist_parsing_spec_witness :
    processLine [] "1111\tword1" = mapSet [] "1111" "word1" ∧
    processLine [("1111", "word1")] "invalid_line_no_tab" = [("1111", "word1")] ∧
    mapGet (mapSet [("1111", "word1")] "1111" "override") "1111" = some "override" :=
  ⟨loadWordlist_parsing_spec.1 [] "1111\tword1" "1111" "word1"
      (by decide) (by decide) (by decide) (by decide),
   loadWordlist_parsing_spec.2.1 [("1111", "word1")] "invalid_line_no_tab"
      (by
        rintro ⟨-, k, w, hsp, -, -⟩
        have hv : splitOnChar '\t' "invalid_line_no_tab" = ["invalid_line_no_tab"] := by
          decide
        rw [hv] at hsp
        simp at hsp),
   loadWordlist_parsing_spec.2.2.1 [("1111", "word1")] "1111" "override"⟩

/-- `generateDiceRolls` from `src/utils/diceware.ts`: the body of the
`for (let i = 0; i < numDice; i++)` loop, one `secureRandomInt(1, 6)`
draw appended per iteration. -/
def rollsAux : Nat → Entropy → String → Except String (String × Entropy)
  | 0, e, acc => .ok (acc, e)
  | f + 1, e, acc =>
    match secureRandomInt 1 6 e with
    | .error msg => .error msg
    | .ok (v, e') => rollsAux f e' (acc ++ toString v)

/-- `generateDiceRolls(numDice)` from `src/utils/diceware.ts`.  The
JavaScript counting loop over a possibly non-integral or negative
`number` runs `numDice.toNat` times. -/
def generateDiceRolls (numDice : Int) (e : Entropy) : Except String (String × Entropy) :=
  rollsAux numDice.toNat e ""

/-- The digit character produced by the `i`-th secure draw after `e`:
the draw value is `1 + g (pos + i) % 6` and its decimal rendering is the
character of code `48 + value`. -/
def rollChar (e : Entropy) (i : Nat) : Char :=
  Char.ofNat (49 + e.g (e.pos + i) % 6)

/-- The dice-roll string of width `n` read off the entropy stream. -/
def rollString : Nat → Entropy → String
  | 0, _ => ""
  | f + 1, e => String.mk [rollChar e 0] ++ rollString f (e.advance 1)

theorem toString_draw (k : Nat) :
    toString (1 + (k : Int) % 6) = String.mk [Char.ofNat (49 + k % 6)] := by
  have h6 : (k : Int) % 6 = ((k % 6 : Nat) : Int) := by omega
  rw [h6]
  have hm6 : k % 6 < 6 := Nat.mod_lt _ (by omega)
  set m := k % 6 with hm
  clear_value m
  interval_cases m <;> decide

theorem rollsAux_ok (n : Nat) : ∀ (e : Entropy) (acc : String),
    rollsAux n e acc = .ok (acc ++ rollString n e, e.advance n) := by
  induction n with
  | zero =>
    intro e acc
    simp [rollsAux, rollString, String.append_empty]
  | succ f ih =>
    intro e acc
    rw [rollsAux, secureRandomInt_ok 1 6 e (by decide)]
    show rollsAux f (e.advance 1) (acc ++ toString (1 + (e.g e.pos : Int) % (6 + 1 - 1))) = _
    rw [show ((6 : Int) + 1 - 1) = 6 from rfl, toString_draw, ih]
    rw [rollString, ← String.append_assoc, Entropy.advance_advance, Nat.add_comm 1 f]
    rfl

theorem rollString_length (n : Nat) : ∀ e : Entropy, (rollString n e).length = n := by
  induction n with
  | zero => intro e; rfl
  | succ f ih =>
    intro e
    rw [rollString]
    simp [ih]
    omega

theorem rollString_get? (n : Nat) : ∀ (e : Entropy) (i : Nat), i < n →
    (rollString n e).data.get? i = some (Char.ofNat (49 + e.g (e.pos + i) % 6)) := by
  induction n with
  | zero => intro e i hi; omega
  | succ f ih =>
    intro e i hi
    rw [rollString]
    cases i with
    | zero =>
      simp [rollChar]
    | succ j =>
      have hj : j < f := by omega
      have hih := ih (e.advance 1) j hj
      simp only [Entropy.advance] at hih
      simp only [String.data_append, List.singleton_append, List.get?_cons_succ]
      rw [show e.pos + (j + 1) = e.pos + 1 + j by omega]
      exact hih

theorem rollString_digits (n : Nat) : ∀ (e : Entropy), ∀ c ∈ (rollString n e).data,
    c = '1' ∨ c = '2' ∨ c = '3' ∨ c = '4' ∨ c = '5' ∨ c = '6' := by
  induction n with
  | zero => intro e c hc; simp [rollString] at hc
  | succ f ih =>
    intro e c hc
    rw [rollString] at hc
    simp only [String.data_append, List.mem_append] at hc
    rcases hc with hc | hc
    · simp only [List.mem_singleton] at hc
      subst hc
      unfold rollChar
      have hm6 : e.g (e.pos + 0) % 6 < 6 := Nat.mod_lt _ (by omega)
      set m := e.g (e.pos + 0) % 6 with hm
      clear_value m
      interval_cases m <;> simp
    · exact ih (e.advance 1) c hc

/-- Claim C4: for every `n ≥ 0`, `generateDiceRolls n` succeeds (no
failure mode), consumes exactly `n` draws, and returns a string of length
exactly `n` whose characters all lie in `{'1',...,'6'}`, the `i`-th
character being the decimal digit of the `i`-th draw (value
`1 + g (pos + i) % 6`) in draw order; `n = 0` yields the empty string. -/
theorem generateDiceRolls_spec (n : Int) (e : Entropy) (h : 0 ≤ n) :
    ∃ s : String,
      generateDiceRolls n e = .ok (s, e.advance n.toNat) ∧
      s.length = n.toNat ∧
      (∀ c ∈ s.data, c = '1' ∨ c = '2' ∨ c = '3' ∨ c = '4' ∨ c = '5' ∨ c = '6') ∧
      (∀ i, i < n.toNat →
        s.data.get? i = some (Char.ofNat (49 + e.g (e.pos + i) % 6))) ∧
      (n = 0 → s = "") := by
  refine ⟨rollString n.toNat e, ?_, rollString_length _ _, rollString_digits _ _, ?_, ?_⟩
  · have := rollsAux_ok n.toNat e ""
    simpa [generateDiceRolls] using this
  · intro i hi
    exact rollString_get? n.toNat e i hi
  · intro hn
    subst hn
    rfl

/-- Witness for C4 at `n = 3` over the identity entropy stream. -/
theorem generateDiceRolls_spec_witness :
    (0 : Int) ≤ 3 ∧
    ∃ s : String,
      generateDiceRolls 3 ⟨fun i => i, 0⟩ = .ok (s, Entropy.advance ⟨fun i => i, 0⟩ (Int.toNat 3)) ∧
      s.length = (3 : Int).toNat ∧
      (∀ c ∈ s.data, c = '1' ∨ c = '2' ∨ c = '3' ∨ c = '4' ∨ c = '5' ∨ c = '6') ∧
      (∀ i, i < (3 : Int).toNat →
        s.data.get? i = some (Char.ofNat (49 + (fun i => i) ((0 : Nat) + i) % 6))) ∧
      ((3 : Int) = 0 → s = "") :=
  ⟨by decide, generateDiceRolls_spec 3 ⟨fun i => i, 0⟩ (by decide)⟩

/-- `secureRandomFloat` from `src/utils/crypto.ts`, over exact rational
arithmetic: `randomBytes(4).readUInt32BE(0)` is an arbitrary 32-bit value
(the next entropy draw reduced mod `2^32`), divided by `0xFFFFFFFF` and
affine-mapped onto the requested range. -/
def secureRandomFloat (min max : ℚ) (e : Entropy) : ℚ × Entropy :=
  let (k, e') := e.next
  let randomValue : ℚ := ((k % 2 ^ 32 : Nat) : ℚ) / 4294967295
  (min + randomValue * (max - min), e')

/-- Counterexample to claim C7 as stated: the code divides the 32-bit
draw by `0xFFFFFFFF = 2^32 - 1`, not by `2^32`, so the scaled value is
not confined to `[0, 1)`: at draw `0xFFFFFFFF` it equals exactly 1 and
`secureRandomFloat 0 1` returns exactly `max = 1`, refuting `v < max`. -/
theorem secureRandomFloat_counterexample :
    (secureRandomFloat 0 1 ⟨fun _ => 4294967295, 0⟩).1 = 1 ∧
    ¬ (secureRandomFloat 0 1 ⟨fun _ => 4294967295, 0⟩).1 < 1 := by
  have h : (secureRandomFloat 0 1 ⟨fun _ => 4294967295, 0⟩).1 = 1 := by
    show (0 : ℚ) + ((4294967295 % 2 ^ 32 : Nat) : ℚ) / 4294967295 * (1 - 0) = 1
    norm_num
  exact ⟨h, by rw [h]; exact lt_irrefl 1⟩

/-- Claim C7 amended: `secureRandomFloat` scales a secure 32-bit draw by
`1 / 0xFFFFFFFF` into the closed interval `[0, 1]` and affine-maps it
onto the range, so for `min < max` every possible draw yields a value `v`
with `min ≤ v ≤ max` (the upper bound is attained, see the
counterexample, so `v < max` does not hold in general). -/
theorem secureRandomFloat_bounds (min max : ℚ) (e : Entropy) (h : min < max) :
    min ≤ (secureRandomFloat min max e).1 ∧ (secureRandomFloat min max e).1 ≤ max := by
  have hv : (secureRandomFloat min max e).1 =
      min + ((e.g e.pos % 2 ^ 32 : Nat) : ℚ) / 4294967295 * (max - min) := rfl
  rw [hv]
  have hk : e.g e.pos % 2 ^ 32 ≤ 4294967295 := by
    have := Nat.mod_lt (e.g e.pos) (show 0 < 2 ^ 32 by norm_num)
    omega
  have h0 : (0 : ℚ) ≤ ((e.g e.pos % 2 ^ 32 : Nat) : ℚ) / 4294967295 := by positivity
  have h1 : ((e.g e.pos % 2 ^ 32 : Nat) : ℚ) / 4294967295 ≤ 1 := by
    rw [div_le_one (by norm_num)]
    exact_mod_cast hk
  constructor
  · nlinarith
  · nlinarith

/-- Witness for the amended C7 at `min = 0`, `max = 1`. -/
theorem secureRandomFloat_bounds_witness :
    (0 : ℚ) < 1 ∧
    ((0 : ℚ) ≤ (secureRandomFloat 0 1 ⟨fun _ => 7, 0⟩).1 ∧
      (secureRandomFloat 0 1 ⟨fun _ => 7, 0⟩).1 ≤ 1) :=
  ⟨by norm_num, secureRandomFloat_bounds 0 1 ⟨fun _ => 7, 0⟩ (by norm_num)⟩

/-- `secureRandomChoice` from `src/utils/crypto.ts`: a single secure
integer draw over `[0, array.length - 1]`; the JavaScript access
`array[index]` (which is `undefined` out of bounds) is modelled by
`List.get?`. -/
def secureRandomChoice {α : Type} (l : List α) (e : Entropy) :
    Except String (Option α × Entropy) :=
  match secureRandomInt 0 ((l.length : Int) - 1) e with
  | .error msg => .error msg
  | .ok (i, e') => .ok (l.get? i.toNat, e')

/-- Claim C10: `secureRandomChoice` returns a member of its input for
every non-empty array, and for the empty array the internal call
`secureRandomInt(0, -1)` violates the `min ≤ max` precondition of the
integer source, so the total embedding returns an error exactly then. -/
theorem secureRandomChoice_spec {α : Type} (l : List α) (e : Entropy) :
    (l ≠ [] → ∃ x e', secureRandomChoice l e = .ok (some x, e') ∧ x ∈ l) ∧
    (l = [] → ∃ msg, secureRandomChoice l e = .error msg) := by
  constructor
  · intro hne
    have hpos : 0 < l.length := List.length_pos.mpr hne
    have h0 : (0 : Int) ≤ (l.length : Int) - 1 := by omega
    unfold secureRandomChoice
    rw [secureRandomInt_ok 0 ((l.length : Int) - 1) e h0]
    have hv : ((0 : Int) + (e.g e.pos : Int) % ((l.length : Int) - 1 + 1 - 0)).toNat
        = e.g e.pos % l.length := by
      have hr : ((l.length : Int) - 1 + 1 - 0) = (l.length : Int) := by ring
      rw [hr]
      omega
    have hm : e.g e.pos % l.length < l.length := Nat.mod_lt _ hpos
    refine ⟨l.get ⟨e.g e.pos % l.length, hm⟩, e.advance 1, ?_, List.get_mem l _ hm⟩
    show Except.ok (l.get? _, e.advance 1) = _
    rw [hv, List.get?_eq_get hm]
  · intro hemp
    subst hemp
    exact ⟨_, rfl⟩

/-- Witness for C10: the non-empty branch at `[5]`, the empty branch at
`([] : List Nat)`. -/
theorem secureRandomChoice_spec_witness :
    (∃ x e', secureRandomChoice [5] ⟨fun _ => 0, 0⟩ = .ok (some x, e') ∧ x ∈ [5]) ∧
    (∃ msg, secureRandomChoice ([] : List Nat) ⟨fun _ => 0, 0⟩ = .error msg) :=
  ⟨(secureRandomChoice_spec [5] ⟨fun _ => 0, 0⟩).1 (by decide),
   (secureRandomChoice_spec ([] : List Nat) ⟨fun _ => 0, 0⟩).2 rfl⟩

/-- The destructuring swap
`[shuffled[i], shuffled[j]] = [shuffled[j], shuffled[i]]` from
`secureArrayShuffle`; in the loop both indices are always in bounds, the
identity fallback is never reached. -/
def swapList {α : Type} (l : List α) (i j : Nat) : List α :=
  match l.get? i, l.get? j with
  | some vi, some vj => (l.set i vj).set j vi
  | _, _ => l

theorem cons_set_perm {α : Type} :
    ∀ (t : List α) (k : Nat) (hk : k < t.length) (a : α),
      List.Perm (t.get ⟨k, hk⟩ :: t.set k a) (a :: t) := by
  intro t
  induction t with
  | nil => intro k hk a; simp at hk
  | cons b t' ih =>
    intro k hk a
    cases k with
    | zero => exact List.Perm.swap a b t'
    | succ m =>
      have hm : m < t'.length := by simpa using hk
      have h1 : List.Perm (t'.get ⟨m, hm⟩ :: b :: t'.set m a)
          (b :: t'.get ⟨m, hm⟩ :: t'.set m a) := List.Perm.swap b _ _
      have h2 : List.Perm (b :: t'.get ⟨m, hm⟩ :: t'.set m a) (b :: a :: t') :=
        (ih m hm a).cons b
      have h3 : List.Perm (b :: a :: t') (a :: b :: t') := List.Perm.swap a b t'
      exact (h1.trans h2).trans h3

theorem set_set_perm {α : Type} :
    ∀ (l : List α) (i j : Nat) (hi : i < l.length) (hj : j < l.length),
      List.Perm ((l.set i (l.get ⟨j, hj⟩)).set j (l.get ⟨i, hi⟩)) l := by
  intro l
  induction l with
  | nil => intro i j hi hj; simp at hi
  | cons a t ih =>
    intro i j hi hj
    cases i with
    | zero =>
      cases j with
      | zero => simp
      | succ k =>
        have hk : k < t.length := by simpa using hj
        exact cons_set_perm t k hk a
    | succ m =>
      cases j with
      | zero =>
        have hm : m < t.length := by simpa using hi
        exact cons_set_perm t m hm a
      | succ k =>
        have hm : m < t.length := by simpa using hi
        have hk : k < t.length := by simpa using hj
        exact (ih m k hm hk).cons a

theorem swapList_perm {α : Type} (l : List α) (i j : Nat) :
    List.Perm (swapList l i j) l := by
  unfold swapList
  cases hgi : l.get? i with
  | none => exact List.Perm.refl l
  | some vi =>
    cases hgj : l.get? j with
    | none => exact List.Perm.refl l
    | some vj =>
      obtain ⟨hi, hvi⟩ := List.get?_eq_some.mp hgi
      obtain ⟨hj, hvj⟩ := List.get?_eq_some.mp hgj
      subst hvi
      subst hvj
      exact set_set_perm l i j hi hj

/-- The `for (let i = shuffled.length - 1; i > 0; i--)` loop of
`secureArrayShuffle`: at each index `i` one secure draw `j` in `[0, i]`
and one swap. -/
def shuffleLoop {α : Type} : Nat → List α → Entropy → Except String (List α × Entropy)
  | 0, l, e => .ok (l, e)
  | i + 1, l, e =>
    match secureRandomInt 0 ((i + 1 : Nat) : Int) e with
    | .error msg => .error msg
    | .ok (j, e') => shuffleLoop i (swapList l (i + 1) j.toNat) e'

/-- `secureArrayShuffle` from `src/utils/crypto.ts`: copy the array and
run the Fisher–Yates loop from the last index down to 1. -/
def secureArrayShuffle {α : Type} (l : List α) (e : Entropy) :
    Except String (List α × Entropy) :=
  shuffleLoop (l.length - 1) l e

theorem shuffleLoop_ok {α : Type} :
    ∀ (fuel : Nat) (l : List α) (e : Entropy),
      ∃ l' e', shuffleLoop fuel l e = .ok (l', e') ∧ List.Perm l' l := by
  intro fuel
  induction fuel with
  | zero => exact fun l e => ⟨l, e, rfl, List.Perm.refl l⟩
  | succ i ih =>
    intro l e
    have hle : (0 : Int) ≤ ((i + 1 : Nat) : Int) := by positivity
    obtain ⟨l', e', heq, hperm⟩ :=
      ih (swapList l (i + 1)
        ((0 + (e.g e.pos : Int) % (((i + 1 : Nat) : Int) + 1 - 0)).toNat)) (e.advance 1)
    refine ⟨l', e', ?_, hperm.trans (swapList_perm l (i + 1) _)⟩
    rw [shuffleLoop, secureRandomInt_ok 0 ((i + 1 : Nat) : Int) e hle]
    exact heq

/-- Claim C9: `secureArrayShuffle` is the Fisher–Yates permutation: for
every input list it succeeds (each swap index `j` for position `i` is one
secure uniform draw over `[0, i]`, a non-empty range) and the result
contains exactly the elements of the input with the same multiplicities
(it is a permutation of the input). -/
theorem secureArrayShuffle_spec {α : Type} (l : List α) (e : Entropy) :
    ∃ l' e', secureArrayShuffle l e = .ok (l', e') ∧ List.Perm l' l :=
  shuffleLoop_ok (l.length - 1) l e

/-- The failure modes of the `diceware-passphrase` handler in
`src/tools/diceware.ts`: a roll with no (truthy) entry in the loaded
wordlist produces the word-not-found error result, which carries exactly
the offending roll and the wordlist identifier — structurally no
passphrase and no words selected so far; a thrown exception is caught by
the surrounding `try`/`catch`. -/
inductive DicewareError where
  | wordNotFound (roll : String) (wordlist : String)
  | thrown (msg : String)
deriving DecidableEq

/-- The capitalize branch of the handler:
`word.charAt(0).toUpperCase() + word.slice(1)` (empty word stays empty). -/
def capFirst (w : String) : String :=
  match w.data with
  | [] => ""
  | c :: rest => String.mk (c.toUpper :: rest)

/-- JavaScript `Array.prototype.join(sep)`. -/
def joinSep (sep : String) : List String → String
  | [] => ""
  | x :: xs => xs.foldl (fun acc y => acc ++ sep ++ y) x

/-- The `for (let i = 0; i < words; i++)` loop of the handler in
`src/tools/diceware.ts`: per iteration one dice-roll string of width
`diceCount`, then the wordlist lookup; the JavaScript truthiness test
`if (!word)` fails the call both when the roll has no entry and when the
stored word is the empty string. -/
def genLoop (wm : List (String × String)) (wordlist : String) (diceCount : Nat)
    (capitalize : Bool) :
    Nat → Entropy → List String → List String →
      Except DicewareError (List String × List String × Entropy)
  | 0, e, accW, accR => .ok (accW, accR, e)
  | n + 1, e, accW, accR =>
    match generateDiceRolls (diceCount : Int) e with
    | .error msg => .error (.thrown msg)
    | .ok (roll, e') =>
      match mapGet wm roll with
      | none => .error (.wordNotFound roll wordlist)
      | some word =>
        if word = "" then .error (.wordNotFound roll wordlist)
        else
          genLoop wm wordlist diceCount capitalize n e'
            (accW ++ [cond capitalize (capFirst word) word]) (accR ++ [roll])

/-- `generatePassphrase`: the success path of the handler in
`src/tools/diceware.ts`, parametrized by the loaded word map and the
dice count (the handler computes them by `loadWordlist(wordlist)` and
`getDiceCount(wordlist)`); the words are joined with a single space. -/
def generatePassphrase (wm : List (String × String)) (wordlist : String)
    (diceCount : Nat) (capitalize : Bool) (words : Int) (e : Entropy) :
    Except DicewareError (String × List String × Entropy) :=
  match genLoop wm wordlist diceCount capitalize words.toNat e [] [] with
  | .error err => .error err
  | .ok (ws, rolls, e') => .ok (joinSep " " ws, rolls, e')

/-- The protocol-level result of the handler: one text block and the
`isError` flag. -/
structure CallToolResult where
  text : String
  isError : Bool
deriving DecidableEq

/-- The result formatting of the handler in `src/tools/diceware.ts`. -/
def renderResult (words : Int) (wordlist : String) :
    Except DicewareError (String × List String × Entropy) → CallToolResult
  | .ok (pass, rolls, _) =>
    ⟨"Diceware passphrase (" ++ toString words ++ " words from " ++ wordlist ++
      "):\n\n" ++ pass ++ "\n\nDice rolls used: " ++ joinSep ", " rolls ++
      "\n\nThis passphrase was generated using cryptographically secure randomness.",
      false⟩
  | .error (.wordNotFound roll wl) =>
    ⟨"Error: No word found for dice roll " ++ roll ++ " in wordlist " ++ wl, true⟩
  | .error (.thrown msg) =>
    ⟨"Error generating diceware passphrase: " ++ msg, true⟩

/-- The full `diceware-passphrase` handler, with the external file read
replaced by the raw wordlist file content.  The boundary `z.enum`
restricts `wordlist` to the four registered names, all own properties of
the registry, so `getDiceCount` yields a number there; the inherited
prototype-member case is unreachable from the handler. -/
def dicewareHandler (content : String) (words : Int) (wordlist : String)
    (capitalize : Bool) (e : Entropy) : CallToolResult :=
  renderResult words wordlist
    (generatePassphrase (parseWordlist content) wordlist
      (match getDiceCount (some wordlist) with
        | .num n => n
        | .protoMember _ => 0) capitalize words e)

/-- The dice-roll string generated by iteration `i` of the handler loop:
each iteration consumes `diceCount` draws. -/
def nthRoll (diceCount : Nat) (e : Entropy) (i : Nat) : String :=
  rollString diceCount (e.advance (diceCount * i))

theorem generateDiceRolls_natCast (n : Nat) (e : Entropy) :
    generateDiceRolls (n : Int) e = .ok (rollString n e, e.advance n) := by
  have h := rollsAux_ok n e ""
  rw [String.empty_append] at h
  rw [generateDiceRolls, Int.toNat_natCast]
  exact h

theorem nthRoll_shift (dc : Nat) (e : Entropy) (j : Nat) :
    nthRoll dc (e.advance dc) j = nthRoll dc e (j + 1) := by
  unfold nthRoll
  rw [Entropy.advance_advance, show dc + dc * j = dc * (j + 1) by ring]

theorem genLoop_first_miss (wm : List (String × String)) (wl : String)
    (dc : Nat) (cap : Bool) :
    ∀ (k n : Nat) (e : Entropy) (accW accR : List String),
      k < n →
      mapGet wm (nthRoll dc e k) = none →
      (∀ j, j < k → ∃ w, mapGet wm (nthRoll dc e j) = some w ∧ w ≠ "") →
      genLoop wm wl dc cap n e accW accR =
        .error (.wordNotFound (nthRoll dc e k) wl) := by
  intro k
  induction k with
  | zero =>
    intro n e accW accR hkn hmiss hprev
    obtain ⟨m, rfl⟩ : ∃ m, n = m + 1 := ⟨n - 1, by omega⟩
    have h0 : nthRoll dc e 0 = rollString dc e := by
      unfold nthRoll
      rw [Nat.mul_zero, Entropy.advance_zero]
    rw [h0] at hmiss
    rw [genLoop, generateDiceRolls_natCast, h0]
    simp only [hmiss]
  | succ j ih =>
    intro n e accW accR hkn hmiss hprev
    obtain ⟨m, rfl⟩ : ∃ m, n = m + 1 := ⟨n - 1, by omega⟩
    rw [genLoop, generateDiceRolls_natCast]
    have h0 : nthRoll dc e 0 = rollString dc e := by
      unfold nthRoll
      rw [Nat.mul_zero, Entropy.advance_zero]
    obtain ⟨w, hw, hwne⟩ := hprev 0 (Nat.succ_pos j)
    rw [h0] at hw
    simp only [hw, if_neg hwne]
    have hmiss' : mapGet wm (nthRoll dc (e.advance dc) j) = none := by
      rw [nthRoll_shift]
      exact hmiss
    have hprev' : ∀ j', j' < j →
        ∃ w', mapGet wm (nthRoll dc (e.advance dc) j') = some w' ∧ w' ≠ "" := by
      intro j' hj'
      rw [nthRoll_shift]
      exact hprev (j' + 1) (by omega)
    rw [← nthRoll_shift]
    exact ih m (e.advance dc) (accW ++ [cond cap (capFirst w) w])
      (accR ++ [rollString dc e]) (by omega) hmiss' hprev'

/-- Claim C1: if some generated dice roll of the passphrase loop has no
entry in the loaded wordlist (the first such roll being `nthRoll dc e k`,
all earlier rolls mapping to truthy words), the operation fails
immediately with the word-not-found error naming exactly that roll and
the wordlist identifier — no substitution, retry or skip — and the
rendered error result is the error text built from the roll and the
wordlist only: it carries no passphrase and no words selected so far. -/
theorem diceware_wordNotFound_spec (wm : List (String × String)) (wl : String)
    (dc : Nat) (cap : Bool) (words : Int) (e : Entropy) (k : Nat)
    (hk : k < words.toNat)
    (hmiss : mapGet wm (nthRoll dc e k) = none)
    (hprev : ∀ j, j < k → ∃ w, mapGet wm (nthRoll dc e j) = some w ∧ w ≠ "") :
    generatePassphrase wm wl dc cap words e =
      .error (.wordNotFound (nthRoll dc e k) wl) ∧
    renderResult words wl (generatePassphrase wm wl dc cap words e) =
      ⟨"Error: No word found for dice roll " ++ nthRoll dc e k ++
        " in wordlist " ++ wl, true⟩ := by
  have h := genLoop_first_miss wm wl dc cap k words.toNat e [] [] hk hmiss hprev
  have h1 : generatePassphrase wm wl dc cap words e =
      .error (.wordNotFound (nthRoll dc e k) wl) := by
    unfold generatePassphrase
    rw [h]
  refine ⟨h1, ?_⟩
  rw [h1]
  rfl

/-- Witness for C1: a one-entry word map, four dice, a stream that rolls
`"2222"` — the first roll has no entry and the call errors with it. -/
theorem diceware_wordNotFound_spec_witness :
    generatePassphrase [("1111", "alpha")] "short_wordlist.txt" 4 false 2 ⟨fun _ => 1, 0⟩ =
      .error (.wordNotFound "2222" "short_wordlist.txt") ∧
    renderResult 2 "short_wordlist.txt"
        (generatePassphrase [("1111", "alpha")] "short_wordlist.txt" 4 false 2 ⟨fun _ => 1, 0⟩) =
      ⟨"Error: No word found for dice roll 2222 in wordlist short_wordlist.txt", true⟩ := by
  have h := diceware_wordNotFound_spec [("1111", "alpha")] "short_wordlist.txt" 4 false 2
    ⟨fun _ => 1, 0⟩ 0 (by decide) (by decide) (fun j hj => absurd hj (Nat.not_lt_zero j))
  have hroll : nthRoll 4 ⟨fun _ => 1, 0⟩ 0 = "2222" := by decide
  rw [hroll] at h
  have htext : "Error: No word found for dice roll " ++ "2222" ++
      " in wordlist " ++ "short_wordlist.txt" =
      "Error: No word found for dice roll 2222 in wordlist short_wordlist.txt" := by decide
  rw [htext] at h
  exact h

theorem genLoop_ok_chars (wm : List (String × String)) (wl : String) (dc : Nat) :
    ∀ (n : Nat) (e : Entropy) (accW accR W R : List String) (e' : Entropy),
      genLoop wm wl dc false n e accW accR = .ok (W, R, e') →
      ∃ ws rs : List String, W = accW ++ ws ∧ R = accR ++ rs ∧
        ws.length = n ∧ rs.length = n ∧
        ∀ i, i < n → ∃ r w, rs.get? i = some r ∧ ws.get? i = some w ∧
          mapGet wm r = some w := by
  intro n
  induction n with
  | zero =>
    intro e accW accR W R e' h
    rw [genLoop] at h
    injection h with h'
    injection h' with hW h''
    injection h'' with hR hE
    refine ⟨[], [], by simp [hW.symm], by simp [hR.symm], rfl, rfl, ?_⟩
    intro i hi
    exact absurd hi (Nat.not_lt_zero i)
  | succ m ih =>
    intro e accW accR W R e' h
    rw [genLoop, generateDiceRolls_natCast] at h
    cases hmg : mapGet wm (rollString dc e) with
    | none =>
      simp only [hmg] at h
      exact Except.noConfusion h
    | some w =>
      simp only [hmg] at h
      by_cases hw : w = ""
      · rw [if_pos hw] at h
        exact absurd h (by simp)
      · rw [if_neg hw] at h
        obtain ⟨ws, rs, hW, hR, hwl, hrl, hpt⟩ := ih (e.advance dc) _ _ W R e' h
        refine ⟨w :: ws, rollString dc e :: rs, ?_, ?_, by simp [hwl], by simp [hrl], ?_⟩
        · rw [hW, List.append_assoc]
          rfl
        · rw [hR, List.append_assoc]
          rfl
        · intro i hi
          cases i with
          | zero => exact ⟨rollString dc e, w, rfl, rfl, hmg⟩
          | succ j => exact hpt j (by omega)

/-- Claim C3: every successful passphrase generation with `capitalize =
false` yields a passphrase that is the looked-up words joined with a
single space in draw order; there are `words.toNat` of them, the rolls
list also has length `words.toNat`, the `i`-th roll is a key of the
loaded word map whose mapped word is the `i`-th joined word, and each
joined word is verbatim in the word map's value set. -/
theorem diceware_success_spec (wm : List (String × String)) (wl : String)
    (dc : Nat) (words : Int) (e : Entropy) (pass : String) (rolls : List String)
    (e' : Entropy)
    (h : generatePassphrase wm wl dc false words e = .ok (pass, rolls, e')) :
    ∃ ws : List String,
      pass = joinSep " " ws ∧
      ws.length = words.toNat ∧
      rolls.length = words.toNat ∧
      (∀ i, i < words.toNat → ∃ r w, rolls.get? i = some r ∧ ws.get? i = some w ∧
        mapGet wm r = some w) ∧
      (∀ w ∈ ws, ∃ r, mapGet wm r = some w) := by
  unfold generatePassphrase at h
  cases hg : genLoop wm wl dc false words.toNat e [] [] with
  | error err =>
    rw [hg] at h
    exact absurd h (by simp)
  | ok res =>
    obtain ⟨W, R, e''⟩ := res
    rw [hg] at h
    injection h with h'
    injection h' with hpass h''
    injection h'' with hrolls hE
    obtain ⟨ws, rs, hW, hR, hwl, hrl, hpt⟩ :=
      genLoop_ok_chars wm wl dc words.toNat e [] [] W R e'' hg
    rw [List.nil_append] at hW hR
    rw [← hW] at hwl hpt
    rw [← hR] at hrl hpt
    subst hpass
    subst hrolls
    refine ⟨W, rfl, hwl, hrl, hpt, ?_⟩
    intro w hw
    obtain ⟨i, hgi⟩ := List.mem_iff_get?.mp hw
    obtain ⟨hlt, -⟩ := List.get?_eq_some.mp hgi
    rw [hwl] at hlt
    obtain ⟨r, w', hr, hw', hmm⟩ := hpt i hlt
    rw [hgi] at hw'
    injection hw' with hww
    exact ⟨r, by rw [hww]; exact hmm⟩

/-- Witness for C3: a one-entry word map, four dice, one word, the
all-zero stream (every draw is 1, the roll is `"1111"`). -/
theorem diceware_success_spec_witness :
    ∃ ws : List String,
      "alpha" = joinSep " " ws ∧
      ws.length = (1 : Int).toNat ∧
      (["1111"] : List String).length = (1 : Int).toNat ∧
      (∀ i, i < (1 : Int).toNat → ∃ r w, (["1111"] : List String).get? i = some r ∧
        ws.get? i = some w ∧ mapGet [("1111", "alpha")] r = some w) ∧
      (∀ w ∈ ws, ∃ r, mapGet [("1111", "alpha")] r = some w) :=
  diceware_success_spec [("1111", "alpha")] "short_wordlist.txt" 4 1 ⟨fun _ => 0, 0⟩
    "alpha" ["1111"] ⟨fun _ => 0, 0 + 4⟩ rfl

/-- Counterexample to claim C8 as stated: the handler performs no
validation of the word count (`z.number()` carries no lower bound), so a
negative word count is not rejected with an error — the loop body runs
zero times and a successful, non-error result with an empty passphrase
is returned. -/
theorem diceware_negative_counterexample :
    generatePassphrase [("1111", "alpha")] "short_wordlist.txt" 4 false (-1)
        ⟨fun _ => 0, 0⟩ =
      .ok ("", [], ⟨fun _ => 0, 0⟩) ∧
    (renderResult (-1) "short_wordlist.txt"
      (generatePassphrase [("1111", "alpha")] "short_wordlist.txt" 4 false (-1)
        ⟨fun _ => 0, 0⟩)).isError = false := by
  exact ⟨rfl, rfl⟩

/-- Claim C8 amended: a passphrase-generation request with a negative
word count is not rejected — the handler has no word-count validation;
instead the generation loop runs zero times, so no dice roll is generated
and no wordlist lookup is performed (the entropy source is untouched),
and the call returns a successful (non-error) result whose passphrase is
the empty string and whose rolls list is empty. -/
theorem diceware_negative_words_spec (wm : List (String × String)) (wl : String)
    (dc : Nat) (cap : Bool) (words : Int) (e : Entropy) (h : words < 0) :
    generatePassphrase wm wl dc cap words e = .ok ("", [], e) := by
  have h0 : words.toNat = 0 := Int.toNat_of_nonpos (le_of_lt h)
  unfold generatePassphrase
  rw [h0]
  rfl

/-- Witness for the amended C8 at word count `-3`. -/
theorem diceware_negative_words_spec_witness :
    generatePassphrase [] "short_wordlist.txt" 4 false (-3) ⟨fun _ => 0, 0⟩ =
      .ok ("", [], ⟨fun _ => 0, 0⟩) :=
  diceware_negative_words_spec [] "short_wordlist.txt" 4 false (-3) ⟨fun _ => 0, 0⟩
    (by decide)
